import Mathlib

/-!
Verification model of the example-project electronic wallet (Go sources).

The bank-service domain layer stores monetary amounts as decimal strings and
computes on them through Go `float64` values (`strconv.ParseFloat`,
binary64 arithmetic, `fmt.Sprintf("%.2f")`).  We embed that arithmetic
exactly: rational numbers are represented by the unnormalized fraction type
`Dy` (integer numerator, positive natural denominator), and the binary64
round-to-nearest-even rounding of Go is the function `f64round` below.
The model covers the normal (non-overflowing, non-subnormal) range of
binary64, which contains every value reachable from the repository's
two-decimal amount strings apart from astronomically large ones; exponent
notation, hex floats and infinities accepted by `strconv.ParseFloat` are not
modelled because no amount string in the system uses them.
-/

set_option maxRecDepth 100000

namespace Wallet

/-- Unnormalized fraction: the value is `num / den`.  Every constructor used
in this development produces a positive denominator. -/
structure Dy where
  num : ℤ
  den : ℕ
  deriving DecidableEq

/-- The rational value of a fraction. -/
def Dy.val (f : Dy) : ℚ := (f.num : ℚ) / (f.den : ℚ)

/-- Strict comparison by cross-multiplication (valid for positive denominators). -/
def dyLt (a b : Dy) : Bool := decide (a.num * (b.den : ℤ) < b.num * (a.den : ℤ))

/-- Exact difference of two fractions. -/
def dySub (a b : Dy) : Dy := ⟨a.num * (b.den : ℤ) - b.num * (a.den : ℤ), a.den * b.den⟩

/-- Exact sum of two fractions. -/
def dyAdd (a b : Dy) : Dy := ⟨a.num * (b.den : ℤ) + b.num * (a.den : ℤ), a.den * b.den⟩

/-- Floor of a fraction (for positive denominators), via flooring integer division. -/
def dyFloor (f : Dy) : ℤ := f.num.fdiv (f.den : ℤ)

/-- Round a fraction to the nearest integer, ties to even — the rounding used
both by binary64 arithmetic and by Go's fixed-precision decimal formatting. -/
def roundHalfEven (f : Dy) : ℤ :=
  let n := dyFloor f
  let r := f.num - n * (f.den : ℤ)
  if 2 * r < (f.den : ℤ) then n
  else if (f.den : ℤ) < 2 * r then n + 1
  else if n % 2 = 0 then n else n + 1

/-- Binade normalization for binary64 rounding: scale a positive fraction by
powers of two until it lies in `[2^52, 2^53)`, returning the scaled fraction
and the binary exponent spent.  Structural fuel keeps the recursion
kernel-computable; 1200 steps cover the whole normal range of binary64. -/
def f64normAux : ℕ → Dy → ℤ → Dy × ℤ
  | 0, f, s => (f, s)
  | fuel + 1, f, s =>
    if dyLt f ⟨4503599627370496, 1⟩ then f64normAux fuel ⟨2 * f.num, f.den⟩ (s - 1)
    else if dyLt ⟨9007199254740991, 1⟩ f then f64normAux fuel ⟨f.num, 2 * f.den⟩ (s + 1)
    else (f, s)

/-- Round a positive fraction to the nearest binary64 value (normal range). -/
def f64roundPos (f : Dy) : Dy :=
  let p := f64normAux 1200 f 0
  let m := roundHalfEven p.1
  if 0 ≤ p.2 then ⟨m * 2 ^ p.2.toNat, 1⟩ else ⟨m, 2 ^ (-p.2).toNat⟩

/-- Round a fraction to the nearest binary64 value: the correctly rounded
result Go produces when parsing a decimal string or rounding an exact
arithmetic result back to a `float64`. -/
def f64round (f : Dy) : Dy :=
  if f.num = 0 then ⟨0, 1⟩
  else if f.num < 0 then
    let p := f64roundPos ⟨-f.num, f.den⟩
    ⟨-p.num, p.den⟩
  else f64roundPos f

/-- Go `float64` subtraction of two representable values: the exact
difference, correctly rounded. -/
def f64sub (a b : Dy) : Dy := f64round (dySub a b)

/-- Go `float64` addition of two representable values. -/
def f64add (a b : Dy) : Dy := f64round (dyAdd a b)

/-! ### Decimal strings -/

/-- The character of a decimal digit. -/
def digitChar (d : ℕ) : Char := Char.ofNat (48 + d)

/-- The value of a decimal digit character. -/
def charDigit (c : Char) : Option ℕ :=
  if 48 ≤ c.toNat ∧ c.toNat ≤ 57 then some (c.toNat - 48) else none

/-- Whether every character in the list is a decimal digit. -/
def allDigitsB (l : List Char) : Bool := l.all (fun c => (charDigit c).isSome)

/-- Numeric value of a digit string (most significant digit first). -/
def digitsValNat (l : List Char) : ℕ :=
  l.foldl (fun a c => 10 * a + ((charDigit c).getD 0)) 0

/-- Split a character list at the first `'.'` (the dot, when present, starts
the second component).  This is how both the amount regex and Go's
`strings.Split(s, ".")` carve up the strings of this development, which
contain at most one dot. -/
def spanNotDot : List Char → List Char × List Char
  | [] => ([], [])
  | c :: cs =>
    if c = '.' then ([], c :: cs)
    else
      let p := spanNotDot cs
      (c :: p.1, p.2)

/-- Parse an unsigned decimal literal (`123`, `123.45`, `123.`, `.45`) to its
exact value.  Model of the integer-and-fraction core of
`strconv.ParseFloat`'s grammar. -/
def parseUnsigned (l : List Char) : Option Dy :=
  let p := spanNotDot l
  match p.2 with
  | [] =>
    if !p.1.isEmpty && allDigitsB p.1 then some ⟨(digitsValNat p.1 : ℤ), 1⟩ else none
  | _ :: fp =>
    if (!p.1.isEmpty || !fp.isEmpty) && allDigitsB p.1 && allDigitsB fp then
      some ⟨(digitsValNat p.1 : ℤ) * 10 ^ fp.length + (digitsValNat fp : ℤ), 10 ^ fp.length⟩
    else none

/-- Parse an optionally signed decimal literal to its exact value. -/
def parseDecChars : List Char → Option Dy
  | [] => parseUnsigned []
  | c :: rest =>
    if c = '-' then (parseUnsigned rest).map (fun d => ⟨-d.num, d.den⟩)
    else if c = '+' then parseUnsigned rest
    else parseUnsigned (c :: rest)

/-- Exact value of a decimal string, or `none` when it is not a plain decimal
literal.  Model of `strconv.ParseFloat` restricted to the decimal forms the
repository produces (its exponent/hex/inf forms never occur there); the
`float64` the Go call returns is `f64round` of this exact value. -/
def parseDec (s : String) : Option Dy := parseDecChars s.data

/-- Go-string comparison of character lists: lexicographic on character
codes, exactly Go's `<` on the ASCII strings used as identifiers here. -/
def charListLt : List Char → List Char → Bool
  | [], [] => false
  | [], _ :: _ => true
  | _ :: _, [] => false
  | a :: as, b :: bs =>
    if a.toNat < b.toNat then true
    else if b.toNat < a.toNat then false
    else charListLt as bs

/-- Go's `<` on strings (byte-wise lexicographic; identical to code-point
order on the ASCII identifiers this system uses). -/
def goStringLt (a b : String) : Bool := charListLt a.data b.data

/-! ### `internal/domain` amount helpers (part of the domain package) -/

/-- Decimal-digit characters of a natural number, most significant first,
with structural fuel (`fuel ≥ n` suffices). -/
def natCharsAux : ℕ → ℕ → List Char
  | 0, _ => []
  | fuel + 1, n => if n = 0 then [] else natCharsAux fuel (n / 10) ++ [digitChar (n % 10)]

/-- Decimal-digit characters of a natural number, most significant first. -/
def natChars (n : ℕ) : List Char := if n = 0 then ['0'] else natCharsAux (n + 1) n

/-- Go `fmt.Sprintf("%.2f", v)`: sign, integer digits, a dot, and exactly two
fraction digits of the value correctly rounded to two decimals (ties to
even). -/
def sprint2 (f : Dy) : List Char :=
  let m := (roundHalfEven ⟨100 * f.num.natAbs, f.den⟩).toNat
  let mag := natChars (m / 100) ++ '.' :: [digitChar (m % 100 / 10), digitChar (m % 10)]
  if f.num < 0 then '-' :: mag else mag

/-- Go `strings.TrimRight(s, string(ch))`: drop the trailing run of `ch`. -/
def trimTrailing (ch : Char) (l : List Char) : List Char :=
  (l.reverse.dropWhile (fun c => c == ch)).reverse

/-- The re-padding step of `formatAmount`: after trailing zeros (and possibly
the dot) are trimmed, restore exactly two decimal places. -/
def padTo2 (l : List Char) : List Char :=
  let p := spanNotDot l
  match p.2 with
  | [] => l ++ ['.', '0', '0']
  | _ :: fp => if fp.length == 1 then l ++ ['0'] else l

/-- `formatAmount` from the domain package: format a `float64` with two
decimal places, trim trailing zeros, then pad back to at least two decimal
places. -/
def formatAmount (f : Dy) : String :=
  let chars := sprint2 f
  if chars.contains '.' then String.mk (padTo2 (trimTrailing '.' (trimTrailing '0' chars)))
  else String.mk chars

/-- The `amountPattern` regex `^\d+(\.\d{1,2})?$` of the domain package. -/
def matchesAmountPattern (s : String) : Bool :=
  let p := spanNotDot s.data
  !p.1.isEmpty && allDigitsB p.1 &&
    (match p.2 with
     | [] => true
     | _ :: fp => allDigitsB fp && (fp.length == 1 || fp.length == 2))

/-- `ValidateAmount` from the domain package: returns the error message, or
`none` when the amount string is valid. -/
def ValidateAmount (value : String) : Option String :=
  if value = "" then some "amount value cannot be empty"
  else if !matchesAmountPattern value then
    some "invalid amount format: must be a positive decimal with up to 2 decimal places"
  else
    match parseDec value with
    | none => some "invalid amount: parse error"
    | some d =>
      let f := f64round d
      if f.num ≤ 0 then some "amount must be positive" else none

/-- `CompareAmounts` from the domain package: parse both strings to
`float64` and compare, yielding `-1`, `0` or `1`. -/
def CompareAmounts (a b : String) : Except String Int :=
  match parseDec a with
  | none => .error "invalid amount a"
  | some da =>
    match parseDec b with
    | none => .error "invalid amount b"
    | some db =>
      let fa := f64round da
      let fb := f64round db
      if dyLt fa fb then .ok (-1) else if dyLt fb fa then .ok 1 else .ok 0

/-- `SubtractAmounts` from the domain package: `float64` subtraction of the
parsed values, formatted back through `formatAmount`. -/
def SubtractAmounts (a b : String) : Except String String :=
  match parseDec a with
  | none => .error "invalid amount a"
  | some da =>
    match parseDec b with
    | none => .error "invalid amount b"
    | some db => .ok (formatAmount (f64sub (f64round da) (f64round db)))

/-- `AddAmounts` from the domain package: `float64` addition of the parsed
values, formatted back through `formatAmount`. -/
def AddAmounts (a b : String) : Except String String :=
  match parseDec a with
  | none => .error "invalid amount a"
  | some da =>
    match parseDec b with
    | none => .error "invalid amount b"
    | some db => .ok (formatAmount (f64add (f64round da) (f64round db)))

/-! ### `internal/domain` model and `ExecuteTransfer` (services.go, models) -/

/-- Transfer status (`PENDING` / `SUCCESS` / `FAILED`). -/
inductive TransferStatus
  | pending
  | success
  | failed
  deriving DecidableEq

/-- A monetary value: decimal string plus ISO 4217 currency code. -/
structure Amount where
  value : String
  currencyCode : String
  deriving DecidableEq

/-- A bank account row. -/
structure Account where
  id : String
  balance : Amount
  createdAt : Nat
  updatedAt : Nat
  deriving DecidableEq

/-- A transfer row. -/
structure Transfer where
  id : String
  senderId : String
  recipientId : String
  amount : Amount
  idempotencyKey : String
  status : TransferStatus
  message : String
  createdAt : Nat
  completedAt : Option Nat
  deriving DecidableEq

/-- `NewTransfer`: a fresh transfer in `PENDING` status with no completion
time.  `freshId` stands for the `uuid.New()` value and `now` for the clock. -/
def NewTransfer (freshId senderId recipientId : String) (amount : Amount) (key : String)
    (now : Nat) : Transfer :=
  ⟨freshId, senderId, recipientId, amount, key, .pending, "", now, none⟩

/-- `Transfer.MarkAsSuccess`. -/
def Transfer.MarkAsSuccess (t : Transfer) (message : String) (now : Nat) : Transfer :=
  { t with status := .success, message := message, completedAt := some now }

/-- `Transfer.MarkAsFailed`. -/
def Transfer.MarkAsFailed (t : Transfer) (message : String) (now : Nat) : Transfer :=
  { t with status := .failed, message := message, completedAt := some now }

/-- `Account.HasSufficientFunds`: true when `CompareAmounts` succeeds and
reports balance ≥ amount. -/
def Account.HasSufficientFunds (a : Account) (amount : Amount) : Bool :=
  match CompareAmounts a.balance.value amount.value with
  | .error _ => false
  | .ok c => decide (0 ≤ c)

/-- `Account.Debit`: validate the amount, subtract it from the balance. -/
def Account.Debit (a : Account) (amount : Amount) (now : Nat) : Except String Account :=
  match ValidateAmount amount.value with
  | some msg => .error msg
  | none =>
    match SubtractAmounts a.balance.value amount.value with
    | .error msg => .error msg
    | .ok nb => .ok { a with balance := { a.balance with value := nb }, updatedAt := now }

/-- `Account.Credit`: validate the amount, add it to the balance. -/
def Account.Credit (a : Account) (amount : Amount) (now : Nat) : Except String Account :=
  match ValidateAmount amount.value with
  | some msg => .error msg
  | none =>
    match AddAmounts a.balance.value amount.value with
    | .error msg => .error msg
    | .ok nb => .ok { a with balance := { a.balance with value := nb }, updatedAt := now }

/-- The sentinel classification of a Go error chain, as observed through
`errors.Is`: one constructor per domain sentinel, `plain` for error chains
containing no sentinel (mapped to `Internal` by the RPC facade). -/
inductive ErrKind
  | accountNotFound
  | insufficientFunds
  | invalidAmount
  | sameAccount
  | currencyMismatch
  | plain
  deriving DecidableEq

/-- A Go error: its sentinel classification and its message. -/
structure GoError where
  kind : ErrKind
  msg : String
  deriving DecidableEq

/-- `fmt.Errorf("...: %w", err)`: wrapping prepends text and preserves the
sentinel classification. -/
def wrapErr (outer : String) (e : GoError) : GoError := ⟨e.kind, outer ++ ": " ++ e.msg⟩

/-- The ledger database: account rows and transfer rows. -/
structure DBState where
  accounts : List Account
  transfers : List Transfer
  deriving DecidableEq

/-- `SELECT ... FROM accounts WHERE id = $1` (ids are unique). -/
def findAccount (s : DBState) (id : String) : Option Account :=
  s.accounts.find? (fun a => a.id == id)

/-- `AccountRepository.Lock`: `SELECT ... FOR UPDATE`; a missing row becomes
`ErrAccountNotFound`. -/
def lockAccountRow (s : DBState) (id : String) : Except GoError Account :=
  match findAccount s id with
  | some a => .ok a
  | none => .error ⟨.accountNotFound, "account not found"⟩

/-- `TransferRepository.GetByIdempotencyKey`: `none` when absent (the
idempotency-key column is unique). -/
def getByIdempotencyKey (s : DBState) (key : String) : Option Transfer :=
  s.transfers.find? (fun t => t.idempotencyKey == key)

/-- `TransferRepository.Create`: insert, surfacing the unique-index violation
on a duplicate idempotency key. -/
def createTransfer (s : DBState) (t : Transfer) : Except GoError DBState :=
  if s.transfers.any (fun u => u.idempotencyKey == t.idempotencyKey) then
    .error ⟨.plain, "transfer with idempotency key already exists"⟩
  else .ok { s with transfers := s.transfers ++ [t] }

/-- `AccountRepository.Update`: `UPDATE accounts SET ... WHERE id`;
`ErrAccountNotFound` when zero rows are affected. -/
def updateAccountRow (s : DBState) (a : Account) : Except GoError DBState :=
  if s.accounts.any (fun b => b.id == a.id) then
    .ok { s with accounts := s.accounts.map (fun b => if b.id == a.id then a else b) }
  else .error ⟨.accountNotFound, "account not found"⟩

/-- `validateTransferRequest` from `services.go`: the same-account check, the
literal-string amount check (`""`, `"0"`, `"0.00"` only — the proper decimal
validation is a `TODO` in the source), and the empty-currency check. -/
def validateTransferRequest (senderId recipientId : String) (amount : Amount) :
    Option GoError :=
  if senderId = recipientId then
    some ⟨.sameAccount, "sender and recipient must be different accounts"⟩
  else if amount.value = "" ∨ amount.value = "0" ∨ amount.value = "0.00" then
    some ⟨.invalidAmount, "invalid amount: must be positive"⟩
  else if amount.currencyCode = "" then some ⟨.plain, "currency code is required"⟩
  else none

/-- One database side effect issued by `ExecuteTransfer`, in issue order.
Effects issued inside a transaction that later rolls back still appear in the
trace: they were I/O the service performed. -/
inductive Effect
  | queryIdempotency (key : String)
  | lockRow (id : String)
  | updateRow (id : String)
  | insertTransfer (id : String) (status : TransferStatus)
  deriving DecidableEq

/-- Result of one `ExecuteTransfer` call: the returned value or error, the
committed database state, and the trace of issued effects. -/
structure ExecResult where
  result : Except GoError Transfer
  state : DBState
  trace : List Effect

/-- The part of the `WithTransaction` closure after both row locks: currency
check, funds check, debit, credit, account updates, transfer insert.  Returns
the transaction's would-be final state (committed only if no error) and the
effects issued. -/
def txAfterLocks (s : DBState) (t0 : Transfer) (senderAccount recipientAccount : Account)
    (amount : Amount) (now : Nat) : Except GoError (DBState × Transfer) × List Effect :=
  if senderAccount.balance.currencyCode ≠ amount.currencyCode ∨
      recipientAccount.balance.currencyCode ≠ amount.currencyCode then
    (.error ⟨.currencyMismatch, "currency mismatch between accounts and transfer"⟩, [])
  else if !(senderAccount.HasSufficientFunds amount) then
    let t1 := t0.MarkAsFailed "Insufficient funds" now
    match createTransfer s t1 with
    | .error e =>
      (.error (wrapErr "failed to create failed transfer record" e),
        [.insertTransfer t1.id t1.status])
    | .ok _ => (.error ⟨.insufficientFunds, "insufficient funds"⟩,
        [.insertTransfer t1.id t1.status])
  else
    match senderAccount.Debit amount now with
    | .error msg =>
      let t1 := t0.MarkAsFailed ("Failed to debit sender: " ++ msg) now
      match createTransfer s t1 with
      | .error e =>
        (.error (wrapErr "failed to create failed transfer record" e),
          [.insertTransfer t1.id t1.status])
      | .ok _ => (.error ⟨.plain, "failed to debit sender account: " ++ msg⟩,
          [.insertTransfer t1.id t1.status])
    | .ok senderUpd =>
      match recipientAccount.Credit amount now with
      | .error msg =>
        let t1 := t0.MarkAsFailed ("Failed to credit recipient: " ++ msg) now
        match createTransfer s t1 with
        | .error e =>
          (.error (wrapErr "failed to create failed transfer record" e),
            [.insertTransfer t1.id t1.status])
        | .ok _ => (.error ⟨.plain, "failed to credit recipient account: " ++ msg⟩,
            [.insertTransfer t1.id t1.status])
      | .ok recipientUpd =>
        match updateAccountRow s senderUpd with
        | .error e =>
          (.error (wrapErr "failed to update sender account" e), [.updateRow senderUpd.id])
        | .ok s1 =>
          match updateAccountRow s1 recipientUpd with
          | .error e =>
            (.error (wrapErr "failed to update recipient account" e),
              [.updateRow senderUpd.id, .updateRow recipientUpd.id])
          | .ok s2 =>
            let t2 := t0.MarkAsSuccess "Transfer completed successfully" now
            match createTransfer s2 t2 with
            | .error e =>
              (.error (wrapErr "failed to create transfer record" e),
                [.updateRow senderUpd.id, .updateRow recipientUpd.id,
                  .insertTransfer t2.id t2.status])
            | .ok s3 =>
              (.ok (s3, t2),
                [.updateRow senderUpd.id, .updateRow recipientUpd.id,
                  .insertTransfer t2.id t2.status])

/-- The `WithTransaction` closure of `ExecuteTransfer`: create the pending
transfer, lock both accounts in deterministic order (`senderID.String() <
recipientID.String()` decides who is locked first; the repository `Lock`
returns `ErrAccountNotFound` for a missing row, so the closure's nil-account
checks cannot fire), then run the post-lock part. -/
def txBody (s : DBState) (senderId recipientId : String) (amount : Amount)
    (key freshId : String) (now : Nat) : Except GoError (DBState × Transfer) × List Effect :=
  let t0 := NewTransfer freshId senderId recipientId amount key now
  if goStringLt senderId recipientId then
    match lockAccountRow s senderId with
    | .error e => (.error (wrapErr "failed to lock sender account" e), [.lockRow senderId])
    | .ok senderAccount =>
      match lockAccountRow s recipientId with
      | .error e =>
        (.error (wrapErr "failed to lock recipient account" e),
          [.lockRow senderId, .lockRow recipientId])
      | .ok recipientAccount =>
        let r := txAfterLocks s t0 senderAccount recipientAccount amount now
        (r.1, .lockRow senderId :: .lockRow recipientId :: r.2)
  else
    match lockAccountRow s recipientId with
    | .error e => (.error (wrapErr "failed to lock recipient account" e), [.lockRow recipientId])
    | .ok recipientAccount =>
      match lockAccountRow s senderId with
      | .error e =>
        (.error (wrapErr "failed to lock sender account" e),
          [.lockRow recipientId, .lockRow senderId])
      | .ok senderAccount =>
        let r := txAfterLocks s t0 senderAccount recipientAccount amount now
        (r.1, .lockRow recipientId :: .lockRow senderId :: r.2)

/-- `TransferService.ExecuteTransfer`: input validation (no I/O), idempotency
lookup (outside any transaction), then the transaction.  `WithTransaction`
commits the closure's state only when it returns no error and rolls every
mutation back otherwise, exactly as `TransactionManager.WithTransaction`
does.  The post-commit event publication is asynchronous, best-effort and
alters neither the state nor the result, so it is not part of the model. -/
def ExecuteTransfer (s : DBState) (senderId recipientId : String) (amount : Amount)
    (idempotencyKey freshId : String) (now : Nat) : ExecResult :=
  match validateTransferRequest senderId recipientId amount with
  | some e => ⟨.error e, s, []⟩
  | none =>
    match getByIdempotencyKey s idempotencyKey with
    | some t => ⟨.ok t, s, [.queryIdempotency idempotencyKey]⟩
    | none =>
      let r := txBody s senderId recipientId amount idempotencyKey freshId now
      match r.1 with
      | .ok st => ⟨.ok st.2, st.1, .queryIdempotency idempotencyKey :: r.2⟩
      | .error e => ⟨.error e, s, .queryIdempotency idempotencyKey :: r.2⟩

/-- The arguments of one `ExecuteTransfer` call. -/
structure TransferRequest where
  senderId : String
  recipientId : String
  amount : Amount
  idempotencyKey : String
  freshId : String
  now : Nat

/-- The database state after a sequence of `ExecuteTransfer` calls. -/
def runTransfers (s : DBState) (reqs : List TransferRequest) : DBState :=
  reqs.foldl
    (fun st r =>
      (ExecuteTransfer st r.senderId r.recipientId r.amount r.idempotencyKey r.freshId r.now).state)
    s

/-- The balance string parses to a non-negative exact decimal value. -/
def nonNegAmountStr (v : String) : Bool :=
  match parseDec v with
  | some d => decide (0 ≤ d.num)
  | none => false

/-- Every persisted account balance is a non-negative decimal. -/
def NonNegBalances (s : DBState) : Bool :=
  s.accounts.all (fun a => nonNegAmountStr a.balance.value)

/-- Every persisted transfer row is in `SUCCESS` status with a completion
timestamp. -/
def AllSuccessTransfers (s : DBState) : Bool :=
  s.transfers.all (fun t => t.status == TransferStatus.success && t.completedAt.isSome)

/-- The unique index on the idempotency-key column: pairwise distinct keys. -/
def UniqueKeys (s : DBState) : Prop :=
  s.transfers.Pairwise (fun a b => a.idempotencyKey ≠ b.idempotencyKey)

/-- The row-lock acquisitions of a trace, in acquisition order. -/
def lockTrace (fx : List Effect) : List String :=
  fx.filterMap (fun e => match e with | .lockRow id => some id | _ => none)

/-! ### Analytics service: RabbitMQ consumer and operation store -/

/-- The `transfer.completed` event payload (`models.TransferCompletedEvent`). -/
structure TransferCompletedEvent where
  eventId : String
  eventType : String
  eventTimestamp : String
  operationId : String
  senderId : String
  recipientId : String
  amount : Amount
  idempotencyKey : String
  status : String
  timestamp : String
  message : String
  deriving DecidableEq

/-- One row of the analytics operation store (`models.Operation`). -/
structure Operation where
  id : String
  accountId : String
  operationType : String
  timestamp : Nat
  amount : Amount
  senderId : String
  recipientId : String
  deriving DecidableEq

/-- `validateEvent` from `rabbitmq_consumer.go`: required-field checks in
source order, then the `status = "SUCCESS"` check. -/
def validateEvent (e : TransferCompletedEvent) : Option String :=
  if e.operationId = "" then some "operation ID is required"
  else if e.senderId = "" then some "sender ID is required"
  else if e.recipientId = "" then some "recipient ID is required"
  else if e.amount.value = "" then some "amount value is required"
  else if e.amount.currencyCode = "" then some "currency code is required"
  else if e.timestamp = "" then some "timestamp is required"
  else if e.status ≠ "SUCCESS" then
    some ("only SUCCESS status events are processed, got: " ++ e.status)
  else none

/-- The operation row the consumer synthesizes for the sender's side of a
transfer event (`ts` is the parsed event timestamp). -/
def senderOperation (e : TransferCompletedEvent) (ts : Nat) : Operation :=
  ⟨e.operationId, e.senderId, "TRANSFER", ts, e.amount, e.senderId, e.recipientId⟩

/-- The operation row the consumer synthesizes for the recipient's side. -/
def recipientOperation (e : TransferCompletedEvent) (ts : Nat) : Operation :=
  ⟨e.operationId, e.recipientId, "TRANSFER", ts, e.amount, e.senderId, e.recipientId⟩

/-- `handleMessage` from `rabbitmq_consumer.go`.  `body` is the result of
`json.Unmarshal` (`none` for malformed JSON), `parseTs` abstracts
`time.Parse(time.RFC3339, ·)`, and `insertFails` is the outcome oracle of the
two ClickHouse inserts.  Returns the error surfaced to `Start` and the rows
actually inserted (the store is append-only and non-transactional, so a row
inserted before a later failure stays). -/
def handleMessage (body : Option TransferCompletedEvent) (parseTs : String → Option Nat)
    (insertFails : Operation → Bool) : Except String Unit × List Operation :=
  match body with
  | none => (.error "failed to unmarshal event", [])
  | some e =>
    match validateEvent e with
    | some msg => (.error ("invalid event: " ++ msg), [])
    | none =>
      match parseTs e.timestamp with
      | none => (.error "failed to parse timestamp", [])
      | some ts =>
        let sOp := senderOperation e ts
        let rOp := recipientOperation e ts
        if insertFails sOp then (.error "failed to insert sender operation", [])
        else if insertFails rOp then (.error "failed to insert recipient operation", [sOp])
        else (.ok (), [sOp, rOp])

/-- What `Start` does with a delivery after `handleMessage`. -/
inductive ConsumerAction
  | ack
  | nack (requeue : Bool)
  deriving DecidableEq

/-- The message-loop decision in `Start`: any `handleMessage` error leads to
`msg.Nack(false, true)` — negative acknowledgement with requeue — and success
leads to `msg.Ack(false)`. -/
def messageAction (body : Option TransferCompletedEvent) (parseTs : String → Option Nat)
    (insertFails : Operation → Bool) : ConsumerAction :=
  match (handleMessage body parseTs insertFails).1 with
  | .error _ => .nack true
  | .ok _ => .ack

/-- Insert an operation into a list sorted by descending timestamp. -/
def sortInsertDesc (o : Operation) : List Operation → List Operation
  | [] => [o]
  | p :: ps => if p.timestamp < o.timestamp then o :: p :: ps else p :: sortInsertDesc o ps

/-- `ORDER BY timestamp DESC` of the ClickHouse query. -/
def sortByTimestampDesc (l : List Operation) : List Operation :=
  l.foldr sortInsertDesc []

/-- `OperationRepository.ListAccountOperations`: filter by account, restrict
to `id > afterID` when a cursor is given, order by timestamp descending,
apply the limit when it is positive. -/
def ListAccountOperations (table : List Operation) (accountId : String) (lim : Int)
    (afterId : String) : List Operation :=
  let filtered := table.filter
    (fun o => o.accountId == accountId && (afterId == "" || goStringLt afterId o.id))
  let sorted := sortByTimestampDesc filtered
  if 0 < lim then sorted.take lim.toNat else sorted

/-- The `after_id` cursor `AnalyticsService.ListAccountOperations` returns:
the id of the last row of the response (the loop variable `lastID`, which
stays `""` when no rows are returned). -/
def responseAfterId (ops : List Operation) : String :=
  ops.foldl (fun _ o => o.id) ""

/-! ### Concrete fixtures used by the claim theorems and witnesses -/

/-- Two RUB accounts with balances `100.00` and `50.00`. -/
def stBase : DBState :=
  ⟨[⟨"aaaa", ⟨"100.00", "RUB"⟩, 0, 0⟩, ⟨"bbbb", ⟨"50.00", "RUB"⟩, 0, 0⟩], []⟩

/-- Sender with balance `0.00`, recipient with `50.00`. -/
def stZero : DBState :=
  ⟨[⟨"aaaa", ⟨"0.00", "RUB"⟩, 0, 0⟩, ⟨"bbbb", ⟨"50.00", "RUB"⟩, 0, 0⟩], []⟩

/-- Sender with the large balance `99999999999999.99`, recipient with `0.00`. -/
def stBig : DBState :=
  ⟨[⟨"aaaa", ⟨"99999999999999.99", "RUB"⟩, 0, 0⟩, ⟨"bbbb", ⟨"0.00", "RUB"⟩, 0, 0⟩], []⟩

/-- A well-formed `transfer.completed` event with status `SUCCESS`. -/
def evFix : TransferCompletedEvent :=
  ⟨"e1", "transfer.completed", "2024-01-01T00:00:00Z", "op1", "acc1", "acc2",
    ⟨"10.00", "RUB"⟩, "k1", "SUCCESS", "2024-01-01T00:00:00Z", ""⟩

/-- An operation row for pagination scenarios. -/
def opRow (i : String) (ts : Nat) : Operation :=
  ⟨i, "A", "TRANSFER", ts, ⟨"1.00", "RUB"⟩, "A", "B"⟩

/-- Three rows of one account whose insertion-id order disagrees with their
timestamp order: ids `z`, `a`, `b` carry timestamps `3`, `2`, `1`. -/
def tblFix : List Operation := [opRow "z" 3, opRow "a" 2, opRow "b" 1]

/-! ### Claim theorems: concrete evaluations -/

/-- C1: the claim says a `Failed` transfer row with message "Insufficient
funds" is committed before `ErrInsufficientFunds` is surfaced.  The code
creates that row inside the `WithTransaction` closure and then returns the
error, so the transaction manager rolls the insert back: on a concrete call
with an existing pair of same-currency accounts and sender balance
`0.00 < 10.00`, the call surfaces `ErrInsufficientFunds`, the insert of the
`FAILED` row appears in the I/O trace, yet the committed state is unchanged
and holds no transfer row at all. -/
theorem c1_failed_row_rolled_back :
    (ExecuteTransfer stZero "aaaa" "bbbb" ⟨"10.00", "RUB"⟩ "k1" "tid1" 7).result =
      .error ⟨.insufficientFunds, "insufficient funds"⟩ ∧
    (ExecuteTransfer stZero "aaaa" "bbbb" ⟨"10.00", "RUB"⟩ "k1" "tid1" 7).trace =
      [.queryIdempotency "k1", .lockRow "aaaa", .lockRow "bbbb",
        .insertTransfer "tid1" .failed] ∧
    (ExecuteTransfer stZero "aaaa" "bbbb" ⟨"10.00", "RUB"⟩ "k1" "tid1" 7).state = stZero ∧
    (ExecuteTransfer stZero "aaaa" "bbbb" ⟨"10.00", "RUB"⟩ "k1" "tid1" 7).state.transfers = [] :=
  ⟨rfl, rfl, rfl, rfl⟩

/-- C3: the claim says a successful transfer moves exactly the transfer
amount, for all representable balances.  The arithmetic runs through
`float64`: transferring `0.01` from a sender holding `99999999999999.99`
succeeds but leaves the sender at `99999999999999.97` — a debit of exactly
`2/100` — while the recipient gains `1/100`, so one cent disappears. -/
theorem c3_conservation_violated :
    SubtractAmounts "99999999999999.99" "0.01" = .ok "99999999999999.97" ∧
    AddAmounts "0.00" "0.01" = .ok "0.01" ∧
    (ExecuteTransfer stBig "aaaa" "bbbb" ⟨"0.01", "RUB"⟩ "k1" "tid1" 7).result =
      .ok ⟨"tid1", "aaaa", "bbbb", ⟨"0.01", "RUB"⟩, "k1", .success,
        "Transfer completed successfully", 7, some 7⟩ ∧
    (ExecuteTransfer stBig "aaaa" "bbbb" ⟨"0.01", "RUB"⟩ "k1" "tid1" 7).state.accounts =
      [⟨"aaaa", ⟨"99999999999999.97", "RUB"⟩, 0, 7⟩, ⟨"bbbb", ⟨"0.01", "RUB"⟩, 0, 7⟩] ∧
    parseDec "99999999999999.99" = some ⟨9999999999999999, 100⟩ ∧
    parseDec "99999999999999.97" = some ⟨9999999999999997, 100⟩ ∧
    parseDec "0.01" = some ⟨1, 100⟩ ∧
    Dy.val ⟨9999999999999999, 100⟩ - Dy.val ⟨9999999999999997, 100⟩ = 2 / 100 ∧
    (2 / 100 : ℚ) ≠ 1 / 100 := by
  refine ⟨rfl, rfl, rfl, rfl, rfl, rfl, rfl, ?_, by norm_num⟩
  unfold Dy.val
  norm_num

/-- C6: the claim states the pagination law — two consecutive `limit = N`
pages concatenate to the `limit = 2N` listing, in strictly-later batches.
The repository orders by `timestamp DESC` but filters the cursor by
`id > after`, so on rows whose id order disagrees with their timestamp order
the second page comes back empty and the concatenation misses rows: with
rows (id `z`, ts 3), (id `a`, ts 2), (id `b`, ts 1), page one returns the
`z` row with cursor `"z"`, the second page is empty, but the `limit = 2`
listing holds two rows.  (The returned cursor itself does equal the id of
the last returned row, `""` on an empty page, as the claim says.) -/
theorem c6_pagination_law_violated :
    ListAccountOperations tblFix "A" 1 "" = [opRow "z" 3] ∧
    responseAfterId (ListAccountOperations tblFix "A" 1 "") = "z" ∧
    ListAccountOperations tblFix "A" 1 "z" = [] ∧
    responseAfterId (ListAccountOperations tblFix "A" 1 "z") = "" ∧
    ListAccountOperations tblFix "A" 2 "" = [opRow "z" 3, opRow "a" 2] ∧
    ListAccountOperations tblFix "A" 1 "" ++ ListAccountOperations tblFix "A" 1 "z" ≠
      ListAccountOperations tblFix "A" 2 "" := by
  refine ⟨rfl, rfl, rfl, rfl, rfl, ?_⟩
  intro h
  rw [show ListAccountOperations tblFix "A" 1 "" ++ ListAccountOperations tblFix "A" 1 "z" =
    [opRow "z" 3] from rfl, show ListAccountOperations tblFix "A" 2 "" =
    [opRow "z" 3, opRow "a" 2] from rfl] at h
  simp at h

/-- C7: the claim says rejected messages (bad status, missing fields,
malformed JSON, unparseable timestamp) are acknowledged with no requeue.
The consumer's loop instead calls `msg.Nack(false, true)` — negative
acknowledgement WITH requeue — for every `handleMessage` error: a
status-`FAILED` event, a malformed body and a bad timestamp all produce
`nack (requeue := true)`, which is neither an ack nor a no-requeue nack. -/
theorem c7_rejected_messages_are_requeued :
    messageAction (some { evFix with status := "FAILED" }) (fun _ => some 0) (fun _ => false) =
      .nack true ∧
    messageAction none (fun _ => some 0) (fun _ => false) = .nack true ∧
    messageAction (some evFix) (fun _ => none) (fun _ => false) = .nack true ∧
    ConsumerAction.nack true ≠ .ack ∧ ConsumerAction.nack true ≠ .nack false :=
  ⟨rfl, rfl, rfl, by decide, by decide⟩

/-- C9: the claim says ill-formed amounts such as `"0.0"`, `"0.000"` and
`"-5.00"` fail synchronously with `ErrInvalidAmount` before any repository
or transaction I/O.  `validateTransferRequest` only rejects the literal
strings `""`, `"0"`, `"0.00"` (the decimal validation is a TODO), so these
amounts pass validation — although `ValidateAmount` rejects all three — and
the call performs the idempotency query, opens the transaction, locks both
rows and attempts the failed-transfer insert before erroring out of `Debit`
with a plain wrapped error (mapped to `Internal`), not `ErrInvalidAmount`. -/
theorem c9_malformed_amounts_reach_io :
    validateTransferRequest "aaaa" "bbbb" ⟨"0.0", "RUB"⟩ = none ∧
    validateTransferRequest "aaaa" "bbbb" ⟨"0.000", "RUB"⟩ = none ∧
    validateTransferRequest "aaaa" "bbbb" ⟨"-5.00", "RUB"⟩ = none ∧
    ValidateAmount "0.0" = some "amount must be positive" ∧
    ValidateAmount "0.000" =
      some "invalid amount format: must be a positive decimal with up to 2 decimal places" ∧
    ValidateAmount "-5.00" =
      some "invalid amount format: must be a positive decimal with up to 2 decimal places" ∧
    (ExecuteTransfer stBase "aaaa" "bbbb" ⟨"0.0", "RUB"⟩ "k1" "tid1" 7).trace =
      [.queryIdempotency "k1", .lockRow "aaaa", .lockRow "bbbb",
        .insertTransfer "tid1" .failed] ∧
    (ExecuteTransfer stBase "aaaa" "bbbb" ⟨"0.0", "RUB"⟩ "k1" "tid1" 7).result =
      .error ⟨.plain, "failed to debit sender account: amount must be positive"⟩ ∧
    ErrKind.plain ≠ ErrKind.invalidAmount :=
  ⟨rfl, rfl, rfl, rfl, rfl, rfl, rfl, rfl, by decide⟩

/-- C8: for every valid `SUCCESS` transfer event whose timestamp parses, the
consumer synthesizes exactly the two operation rows sharing the event's
operation id — one for the sender's account, one for the recipient's, both
carrying both counterparty fields — and a failure of either insert makes the
message be negatively acknowledged with requeue. -/
theorem c8_two_rows_per_event (e : TransferCompletedEvent) (parseTs : String → Option Nat)
    (ts : Nat) (insertFails : Operation → Bool)
    (hv : validateEvent e = none) (ht : parseTs e.timestamp = some ts) :
    (senderOperation e ts).id = e.operationId ∧
    (recipientOperation e ts).id = e.operationId ∧
    (senderOperation e ts).accountId = e.senderId ∧
    (recipientOperation e ts).accountId = e.recipientId ∧
    (senderOperation e ts).senderId = e.senderId ∧
    (senderOperation e ts).recipientId = e.recipientId ∧
    (recipientOperation e ts).senderId = e.senderId ∧
    (recipientOperation e ts).recipientId = e.recipientId ∧
    (insertFails (senderOperation e ts) = false → insertFails (recipientOperation e ts) = false →
      handleMessage (some e) parseTs insertFails =
        (.ok (), [senderOperation e ts, recipientOperation e ts]) ∧
      messageAction (some e) parseTs insertFails = .ack) ∧
    ((insertFails (senderOperation e ts) = true ∨ insertFails (recipientOperation e ts) = true) →
      messageAction (some e) parseTs insertFails = .nack true) := by
  refine ⟨rfl, rfl, rfl, rfl, rfl, rfl, rfl, rfl, ?_, ?_⟩
  · intro h1 h2
    constructor
    · simp [handleMessage, hv, ht, h1, h2]
    · simp [messageAction, handleMessage, hv, ht, h1, h2]
  · intro h
    cases h1 : insertFails (senderOperation e ts)
    · rcases h with h | h
      · rw [h1] at h; cases h
      · simp [messageAction, handleMessage, hv, ht, h1, h]
    · simp [messageAction, handleMessage, hv, ht, h1]

/-- C8 witness: the theorem applied to a concrete event, timestamp parser and
insert oracle. -/
theorem c8_two_rows_per_event_witness :
    validateEvent evFix = none ∧ (fun _ : String => some 3) evFix.timestamp = some 3 ∧
    ((senderOperation evFix 3).id = evFix.operationId ∧
      (recipientOperation evFix 3).id = evFix.operationId ∧
      (senderOperation evFix 3).accountId = evFix.senderId ∧
      (recipientOperation evFix 3).accountId = evFix.recipientId ∧
      (senderOperation evFix 3).senderId = evFix.senderId ∧
      (senderOperation evFix 3).recipientId = evFix.recipientId ∧
      (recipientOperation evFix 3).senderId = evFix.senderId ∧
      (recipientOperation evFix 3).recipientId = evFix.recipientId ∧
      ((fun _ : Operation => false) (senderOperation evFix 3) = false →
        (fun _ : Operation => false) (recipientOperation evFix 3) = false →
        handleMessage (some evFix) (fun _ => some 3) (fun _ => false) =
          (.ok (), [senderOperation evFix 3, recipientOperation evFix 3]) ∧
        messageAction (some evFix) (fun _ => some 3) (fun _ => false) = .ack) ∧
      (((fun _ : Operation => false) (senderOperation evFix 3) = true ∨
          (fun _ : Operation => false) (recipientOperation evFix 3) = true) →
        messageAction (some evFix) (fun _ => some 3) (fun _ => false) = .nack true)) :=
  ⟨rfl, rfl, c8_two_rows_per_event evFix (fun _ => some 3) 3 (fun _ => false) rfl rfl⟩


/-! ### Supporting lemmas: digits, spans, printing -/

theorem charDigit_bounds (c : Char) (h : (charDigit c).isSome = true) :
    48 ≤ c.toNat ∧ c.toNat ≤ 57 := by
  unfold charDigit at h
  split at h
  · assumption
  · simp at h

theorem charDigit_ne_dot (c : Char) (h : (charDigit c).isSome = true) : c ≠ '.' := by
  rintro rfl
  have hb := charDigit_bounds _ h
  revert hb
  decide

theorem charDigit_ne_minus (c : Char) (h : (charDigit c).isSome = true) : c ≠ '-' := by
  rintro rfl
  have hb := charDigit_bounds _ h
  revert hb
  decide

theorem charDigit_ne_plus (c : Char) (h : (charDigit c).isSome = true) : c ≠ '+' := by
  rintro rfl
  have hb := charDigit_bounds _ h
  revert hb
  decide

theorem digitChar_isDigit (d : ℕ) (h : d < 10) : (charDigit (digitChar d)).isSome = true := by
  interval_cases d <;> decide

theorem allDigitsB_mem {l : List Char} (h : allDigitsB l = true) {c : Char} (hc : c ∈ l) :
    (charDigit c).isSome = true := by
  unfold allDigitsB at h
  rw [List.all_eq_true] at h
  exact h c hc

theorem spanNotDot_no_dot {l : List Char} (h : ∀ c ∈ l, c ≠ '.') :
    spanNotDot l = (l, []) := by
  induction l with
  | nil => rfl
  | cons c cs ih =>
    have hc : c ≠ '.' := h c (List.mem_cons_self c cs)
    simp only [spanNotDot, if_neg hc]
    rw [ih (fun x hx => h x (List.mem_cons_of_mem c hx))]

theorem spanNotDot_append_dot {ip : List Char} (r : List Char) (h : ∀ c ∈ ip, c ≠ '.') :
    spanNotDot (ip ++ '.' :: r) = (ip, '.' :: r) := by
  induction ip with
  | nil => simp [spanNotDot]
  | cons c cs ih =>
    have hc : c ≠ '.' := h c (List.mem_cons_self c cs)
    simp only [List.cons_append, spanNotDot, if_neg hc, List.append_eq]
    rw [ih (fun x hx => h x (List.mem_cons_of_mem c hx))]

theorem spanNotDot_recombine (l : List Char) : (spanNotDot l).1 ++ (spanNotDot l).2 = l := by
  induction l with
  | nil => rfl
  | cons c cs ih =>
    by_cases hc : c = '.'
    · simp [spanNotDot, hc]
    · simp only [spanNotDot, if_neg hc, List.cons_append]
      rw [ih]

theorem natCharsAux_digits : ∀ (fuel n : ℕ), allDigitsB (natCharsAux fuel n) = true := by
  intro fuel
  induction fuel with
  | zero => intro n; rfl
  | succ f ih =>
    intro n
    by_cases hn : n = 0
    · simp [natCharsAux, hn, allDigitsB]
    · simp only [natCharsAux, if_neg hn]
      unfold allDigitsB at ih ⊢
      rw [List.all_append]
      rw [ih (n / 10)]
      simp [digitChar_isDigit (n % 10) (Nat.mod_lt _ (by norm_num))]

theorem natChars_digits (n : ℕ) : allDigitsB (natChars n) = true := by
  unfold natChars
  split
  · decide
  · exact natCharsAux_digits (n + 1) n

theorem natChars_ne_nil (n : ℕ) : natChars n ≠ [] := by
  unfold natChars
  split
  · simp
  · rename_i hn
    simp only [natCharsAux, if_neg hn]
    simp

/-! ### Supporting lemmas: sign preservation through the float model -/

theorem f64normAux_num_nonneg :
    ∀ (fuel : ℕ) (f : Dy) (s : ℤ), 0 ≤ f.num → 0 ≤ (f64normAux fuel f s).1.num := by
  intro fuel
  induction fuel with
  | zero => intro f s h; exact h
  | succ fl ih =>
    intro f s h
    unfold f64normAux
    split
    · refine ih _ _ ?_
      show 0 ≤ 2 * f.num
      omega
    · split
      · exact ih _ _ h
      · exact h

theorem roundHalfEven_nonneg (f : Dy) (h : 0 ≤ f.num) : 0 ≤ roundHalfEven f := by
  simp only [roundHalfEven, dyFloor]
  have hd : (0 : ℤ) ≤ (f.den : ℤ) := Int.natCast_nonneg _
  have hn : 0 ≤ f.num.fdiv (f.den : ℤ) := Int.fdiv_nonneg h hd
  split
  · exact hn
  · split
    · omega
    · split <;> omega

theorem f64roundPos_num_nonneg (f : Dy) (h : 0 ≤ f.num) : 0 ≤ (f64roundPos f).num := by
  simp only [f64roundPos]
  have hm : 0 ≤ roundHalfEven (f64normAux 1200 f 0).1 :=
    roundHalfEven_nonneg _ (f64normAux_num_nonneg 1200 f 0 h)
  split
  · exact mul_nonneg hm (pow_nonneg (by norm_num) _)
  · exact hm

theorem f64round_num_nonneg (f : Dy) (h : 0 ≤ f.num) : 0 ≤ (f64round f).num := by
  unfold f64round
  split
  · norm_num
  · split
    · omega
    · exact f64roundPos_num_nonneg f h

theorem dropWhile_of_head_false {p : Char → Bool} {c : Char} (l : List Char)
    (h : p c = false) : (c :: l).dropWhile p = c :: l := by
  simp [List.dropWhile_cons, h]

theorem dropWhile_reverse_no_dot {ip : List Char} (hip : ip ≠ [])
    (hnd : ∀ c ∈ ip, c ≠ '.') : ip.reverse.dropWhile (fun c => c == '.') = ip.reverse := by
  cases hrev : ip.reverse with
  | nil => simp [List.reverse_eq_nil_iff] at hrev; exact absurd hrev hip
  | cons x xs =>
    have hx : x ∈ ip := by
      have : x ∈ ip.reverse := by rw [hrev]; exact List.mem_cons_self x xs
      simpa using this
    exact dropWhile_of_head_false xs (by simp [hnd x hx])

/-- The trim-trailing-zeros-then-repad dance of `formatAmount` is the
identity on the `%.2f` shape `digits ++ "." ++ two digits`. -/
theorem trimPad_id (ip : List Char) (d1 d0 : Char) (hip : ip ≠ [])
    (hipd : allDigitsB ip = true) (h1 : (charDigit d1).isSome = true)
    (h0 : (charDigit d0).isSome = true) :
    padTo2 (trimTrailing '.' (trimTrailing '0' (ip ++ '.' :: [d1, d0]))) =
      ip ++ '.' :: [d1, d0] := by
  have hnd : ∀ c ∈ ip, c ≠ '.' := fun c hc => charDigit_ne_dot c (allDigitsB_mem hipd hc)
  have e1 : (ip ++ '.' :: [d1, d0]).reverse = d0 :: d1 :: '.' :: ip.reverse := by simp
  by_cases hd0 : d0 = '0'
  · subst hd0
    by_cases hd1 : d1 = '0'
    · subst hd1
      have t0 : trimTrailing '0' (ip ++ '.' :: ['0', '0']) = ip ++ ['.'] := by
        unfold trimTrailing
        rw [e1]
        rw [List.dropWhile_cons, if_pos (by decide), List.dropWhile_cons, if_pos (by decide),
          dropWhile_of_head_false _ (by decide)]
        simp
      rw [t0]
      have t1 : trimTrailing '.' (ip ++ ['.']) = ip := by
        unfold trimTrailing
        rw [show (ip ++ ['.']).reverse = '.' :: ip.reverse by simp]
        rw [List.dropWhile_cons, if_pos (by decide), dropWhile_reverse_no_dot hip hnd]
        simp
      rw [t1]
      unfold padTo2
      rw [spanNotDot_no_dot hnd]
    · have t0 : trimTrailing '0' (ip ++ '.' :: [d1, '0']) = ip ++ ['.', d1] := by
        unfold trimTrailing
        rw [e1]
        rw [List.dropWhile_cons, if_pos (by decide),
          dropWhile_of_head_false _ (by simp [hd1])]
        simp
      rw [t0]
      have t1 : trimTrailing '.' (ip ++ ['.', d1]) = ip ++ ['.', d1] := by
        unfold trimTrailing
        rw [show (ip ++ ['.', d1]).reverse = d1 :: '.' :: ip.reverse by simp]
        rw [dropWhile_of_head_false _ (by simp [charDigit_ne_dot d1 h1])]
        simp
      rw [t1]
      unfold padTo2
      rw [show ip ++ ['.', d1] = ip ++ '.' :: [d1] from rfl, spanNotDot_append_dot [d1] hnd]
      simp
  · have t0 : trimTrailing '0' (ip ++ '.' :: [d1, d0]) = ip ++ '.' :: [d1, d0] := by
      unfold trimTrailing
      rw [e1, dropWhile_of_head_false _ (by simp [hd0])]
      simp
    rw [t0]
    have t1 : trimTrailing '.' (ip ++ '.' :: [d1, d0]) = ip ++ '.' :: [d1, d0] := by
      unfold trimTrailing
      rw [e1, dropWhile_of_head_false _ (by simp [charDigit_ne_dot d0 h0])]
      simp
    rw [t1]
    unfold padTo2
    rw [spanNotDot_append_dot [d1, d0] hnd]
    simp

/-- A digit-headed character list parses through the sign dispatch straight
into `parseUnsigned`. -/
theorem parseDecChars_of_digit_head (c : Char) (rest : List Char)
    (hc : (charDigit c).isSome = true) :
    parseDecChars (c :: rest) = parseUnsigned (c :: rest) := by
  simp only [parseDecChars]
  rw [if_neg (charDigit_ne_minus c hc), if_neg (charDigit_ne_plus c hc)]

/-- Parsing the `%.2f` shape succeeds with a non-negative value. -/
theorem parse_digitShape_nonneg (ip : List Char) (d1 d0 : Char) (hip : ip ≠ [])
    (hipd : allDigitsB ip = true) (h1 : (charDigit d1).isSome = true)
    (h0 : (charDigit d0).isSome = true) :
    ∃ d, parseDecChars (ip ++ '.' :: [d1, d0]) = some d ∧ 0 ≤ d.num := by
  have hnd : ∀ c ∈ ip, c ≠ '.' := fun c hc => charDigit_ne_dot c (allDigitsB_mem hipd hc)
  cases hipc : ip with
  | nil => exact absurd hipc hip
  | cons c cs =>
    subst hipc
    have hcd : (charDigit c).isSome = true :=
      allDigitsB_mem hipd (List.mem_cons_self c cs)
    rw [List.cons_append, parseDecChars_of_digit_head c _ hcd, ← List.cons_append]
    unfold parseUnsigned
    rw [spanNotDot_append_dot [d1, d0] hnd]
    simp only [List.isEmpty_cons, Bool.not_false, Bool.true_and, List.isEmpty_nil]
    rw [hipd]
    have hfp : allDigitsB [d1, d0] = true := by simp [allDigitsB, h1, h0]
    rw [hfp]
    simp only [Bool.and_true, Bool.true_and, Bool.or_true, Bool.true_or, if_pos]
    refine ⟨_, rfl, ?_⟩
    positivity

/-- `formatAmount` of a non-negative binary64 value is a decimal string whose
exact value is non-negative. -/
theorem formatAmount_nonneg (g : Dy) (hg : 0 ≤ g.num) :
    nonNegAmountStr (formatAmount g) = true := by
  unfold formatAmount sprint2
  rw [if_neg (by omega : ¬ g.num < 0)]
  set m := (roundHalfEven ⟨100 * (g.num.natAbs : ℤ), g.den⟩).toNat with hm
  have hlt1 : m % 100 / 10 < 10 := by omega
  have hlt0 : m % 10 < 10 := by omega
  have hdig1 := digitChar_isDigit _ hlt1
  have hdig0 := digitChar_isDigit _ hlt0
  have hmem : ('.' : Char) ∈ natChars (m / 100) ++
      '.' :: [digitChar (m % 100 / 10), digitChar (m % 10)] :=
    List.mem_append_right _ (List.mem_cons_self _ _)
  rw [if_pos (List.elem_eq_true_of_mem hmem)]
  rw [trimPad_id _ _ _ (natChars_ne_nil _) (natChars_digits _) hdig1 hdig0]
  obtain ⟨d, hd, hdn⟩ :=
    parse_digitShape_nonneg (natChars (m / 100)) _ _ (natChars_ne_nil _) (natChars_digits _)
      hdig1 hdig0
  unfold nonNegAmountStr parseDec
  rw [show (String.mk (natChars (m / 100) ++
      '.' :: [digitChar (m % 100 / 10), digitChar (m % 10)])).data =
      natChars (m / 100) ++ '.' :: [digitChar (m % 100 / 10), digitChar (m % 10)] from rfl]
  rw [hd]
  simp [hdn]

theorem spanNotDot_snd_head (l : List Char) (r0 : Char) (rs : List Char)
    (h : (spanNotDot l).2 = r0 :: rs) : r0 = '.' := by
  induction l with
  | nil => cases h
  | cons c cs ih =>
    by_cases hc : c = '.'
    · simp only [spanNotDot, if_pos hc] at h
      rw [← hc]
      exact (List.cons.injEq _ _ _ _ ▸ h).1.symm
    · simp only [spanNotDot, if_neg hc] at h
      exact ih h

/-- A string matching the amount regex parses to a non-negative exact value. -/
theorem pattern_parse_nonneg (v : String) (h : matchesAmountPattern v = true) :
    ∃ d, parseDec v = some d ∧ 0 ≤ d.num := by
  unfold matchesAmountPattern at h
  obtain ⟨ip, rest, hsp⟩ : ∃ ip rest, spanNotDot v.data = (ip, rest) := ⟨_, _, rfl⟩
  rw [hsp] at h
  have hrec : ip ++ rest = v.data := by
    have hx := spanNotDot_recombine v.data
    rw [hsp] at hx
    exact hx
  rw [Bool.and_eq_true, Bool.and_eq_true] at h
  obtain ⟨⟨hne, hdig⟩, hm⟩ := h
  have hnd : ∀ c ∈ ip, c ≠ '.' := fun c hc => charDigit_ne_dot c (allDigitsB_mem hdig hc)
  cases hip : ip with
  | nil =>
    rw [hip] at hne
    simp at hne
  | cons c cs =>
    subst hip
    have hcd : (charDigit c).isSome = true := allDigitsB_mem hdig (List.mem_cons_self c cs)
    unfold parseDec
    rw [← hrec, List.cons_append, parseDecChars_of_digit_head c _ hcd, ← List.cons_append]
    unfold parseUnsigned
    cases rest with
    | nil =>
      rw [List.append_nil, spanNotDot_no_dot hnd]
      simp only [List.isEmpty_cons, Bool.not_false, Bool.true_and]
      rw [hdig]
      simp only [Bool.and_true, if_pos]
      refine ⟨_, rfl, ?_⟩
      positivity
    | cons r0 rs =>
      have h0 : r0 = '.' := spanNotDot_snd_head v.data r0 rs (by rw [hsp])
      subst h0
      have hm2 : (allDigitsB rs && (rs.length == 1 || rs.length == 2)) = true := hm
      rw [Bool.and_eq_true] at hm2
      obtain ⟨hrdig, hrlen⟩ := hm2
      rw [spanNotDot_append_dot rs hnd]
      simp only [List.isEmpty_cons, Bool.not_false, Bool.true_and, Bool.false_or]
      rw [hdig, hrdig]
      simp only [Bool.and_true, Bool.true_and, Bool.or_true, Bool.true_or, if_pos]
      refine ⟨_, rfl, ?_⟩
      positivity

/-- `ValidateAmount` accepting a value means the amount regex matched. -/
theorem validateAmount_none_pattern (v : String) (h : ValidateAmount v = none) :
    matchesAmountPattern v = true := by
  unfold ValidateAmount at h
  split at h
  · cases h
  · split at h
    · cases h
    · rename_i h2
      simpa using h2

/-- A successful funds check yields both parses with `float64(balance) ≥
float64(amount)`, i.e. a non-negative exact difference of the two parsed
binary64 values. -/
theorem hasSufficientFunds_spec (a : Account) (amt : Amount)
    (h : a.HasSufficientFunds amt = true) :
    ∃ da db, parseDec a.balance.value = some da ∧ parseDec amt.value = some db ∧
      0 ≤ (dySub (f64round da) (f64round db)).num := by
  unfold Account.HasSufficientFunds at h
  split at h
  · cases h
  · rename_i c heq
    have hc : 0 ≤ c := of_decide_eq_true h
    unfold CompareAmounts at heq
    split at heq
    · cases heq
    · rename_i da hpa
      split at heq
      · cases heq
      · rename_i db hpb
        refine ⟨da, db, hpa, hpb, ?_⟩
        dsimp only at heq
        split at heq
        · injection heq with heq
          omega
        · split at heq
          · rename_i hlt1 hlt2
            show 0 ≤ (f64round da).num * ((f64round db).den : ℤ) -
              (f64round db).num * ((f64round da).den : ℤ)
            have hge : ¬ (f64round da).num * ((f64round db).den : ℤ) <
                (f64round db).num * ((f64round da).den : ℤ) := by
              simpa [dyLt] using hlt1
            omega
          · rename_i hlt1 hlt2
            show 0 ≤ (f64round da).num * ((f64round db).den : ℤ) -
              (f64round db).num * ((f64round da).den : ℤ)
            have hge : ¬ (f64round da).num * ((f64round db).den : ℤ) <
                (f64round db).num * ((f64round da).den : ℤ) := by
              simpa [dyLt] using hlt1
            omega

/-- A debit that passed the funds check leaves a non-negative balance. -/
theorem Debit_ok_nonneg (a : Account) (amt : Amount) (now : Nat) (upd : Account)
    (hs : a.HasSufficientFunds amt = true) (hd : a.Debit amt now = .ok upd) :
    nonNegAmountStr upd.balance.value = true := by
  obtain ⟨da, db, hpa, hpb, hnn⟩ := hasSufficientFunds_spec a amt hs
  unfold Account.Debit at hd
  split at hd
  · cases hd
  · split at hd
    · cases hd
    · rename_i nb heq
      injection hd with hd
      rw [← hd]
      show nonNegAmountStr nb = true
      unfold SubtractAmounts at heq
      split at heq
      · cases heq
      · rename_i da2 hpa2
        split at heq
        · cases heq
        · rename_i db2 hpb2
          injection heq with heq
          rw [← heq]
          rw [hpa] at hpa2
          rw [hpb] at hpb2
          rw [← Option.some.inj hpa2, ← Option.some.inj hpb2]
          exact formatAmount_nonneg _ (f64round_num_nonneg _ hnn)

/-- A credit on a non-negative balance with a regex-valid amount leaves a
non-negative balance. -/
theorem Credit_ok_nonneg (a : Account) (amt : Amount) (now : Nat) (upd : Account)
    (ha : nonNegAmountStr a.balance.value = true) (hc : a.Credit amt now = .ok upd) :
    nonNegAmountStr upd.balance.value = true := by
  unfold Account.Credit at hc
  split at hc
  · cases hc
  · rename_i hv
    obtain ⟨db, hpb, hdbn⟩ := pattern_parse_nonneg _ (validateAmount_none_pattern _ hv)
    unfold nonNegAmountStr at ha
    split at ha
    · rename_i da hpa
      have hdan : 0 ≤ da.num := of_decide_eq_true ha
      split at hc
      · cases hc
      · rename_i nb heq
        injection hc with hc
        rw [← hc]
        show nonNegAmountStr nb = true
        unfold AddAmounts at heq
        split at heq
        · cases heq
        · rename_i da2 hpa2
          split at heq
          · cases heq
          · rename_i db2 hpb2
            injection heq with heq
            rw [← heq]
            rw [hpa] at hpa2
            rw [hpb] at hpb2
            rw [← Option.some.inj hpa2, ← Option.some.inj hpb2]
            refine formatAmount_nonneg _ (f64round_num_nonneg _ ?_)
            show 0 ≤ (f64round da).num * ((f64round db).den : ℤ) +
              (f64round db).num * ((f64round da).den : ℤ)
            have g1 := f64round_num_nonneg da hdan
            have g2 := f64round_num_nonneg db hdbn
            have g3 : (0 : ℤ) ≤ ((f64round db).den : ℤ) := Int.natCast_nonneg _
            have g4 : (0 : ℤ) ≤ ((f64round da).den : ℤ) := Int.natCast_nonneg _
            positivity
    · cases ha

/-! ### Characterization of the `ExecuteTransfer` success path -/

theorem lockAccountRow_ok_mem (s : DBState) (id : String) (a : Account)
    (h : lockAccountRow s id = .ok a) : a ∈ s.accounts := by
  unfold lockAccountRow findAccount at h
  split at h
  · rename_i a2 hf
    injection h with h
    subst h
    exact List.mem_of_find?_eq_some hf
  · cases h

theorem txAfterLocks_ok_spec (s : DBState) (t0 : Transfer) (sAcc rAcc : Account)
    (amt : Amount) (now : Nat) (s1 : DBState) (t : Transfer)
    (h : (txAfterLocks s t0 sAcc rAcc amt now).1 = .ok (s1, t)) :
    t = t0.MarkAsSuccess "Transfer completed successfully" now ∧
    s1.transfers = s.transfers ++ [t] ∧
    sAcc.HasSufficientFunds amt = true ∧
    ∃ sUpd rUpd : Account,
      sAcc.Debit amt now = .ok sUpd ∧ rAcc.Credit amt now = .ok rUpd ∧
      s1.accounts = (s.accounts.map (fun b => if b.id == sUpd.id then sUpd else b)).map
        (fun b => if b.id == rUpd.id then rUpd else b) := by
  unfold txAfterLocks at h
  dsimp only at h
  split at h
  · simp at h
  · split at h
    · split at h <;> simp at h
    · rename_i hsf
      split at h
      · split at h <;> simp at h
      · rename_i sUpd hdeb
        split at h
        · split at h <;> simp at h
        · rename_i rUpd hcred
          split at h
          · simp at h
          · rename_i s1' heq1
            split at h
            · simp at h
            · rename_i s2 heq2
              split at h
              · simp at h
              · rename_i s3 heq3
                simp only [] at h
                injection h with h
                injection h with hs ht
                subst hs
                subst ht
                unfold updateAccountRow at heq1 heq2
                split at heq1
                · injection heq1 with heq1
                  subst heq1
                  split at heq2
                  · injection heq2 with heq2
                    subst heq2
                    unfold createTransfer at heq3
                    split at heq3
                    · cases heq3
                    · injection heq3 with heq3
                      subst heq3
                      refine ⟨rfl, rfl, by simpa using hsf, sUpd, rUpd, hdeb, hcred, rfl⟩
                  · cases heq2
                · cases heq1

theorem txBody_ok_spec (s : DBState) (sid rid : String) (amt : Amount) (k fid : String)
    (now : Nat) (s1 : DBState) (t : Transfer)
    (h : (txBody s sid rid amt k fid now).1 = .ok (s1, t)) :
    t = (NewTransfer fid sid rid amt k now).MarkAsSuccess "Transfer completed successfully" now ∧
    s1.transfers = s.transfers ++ [t] ∧
    ∃ sAcc rAcc sUpd rUpd : Account,
      lockAccountRow s sid = .ok sAcc ∧ lockAccountRow s rid = .ok rAcc ∧
      sAcc.HasSufficientFunds amt = true ∧
      sAcc.Debit amt now = .ok sUpd ∧ rAcc.Credit amt now = .ok rUpd ∧
      s1.accounts = (s.accounts.map (fun b => if b.id == sUpd.id then sUpd else b)).map
        (fun b => if b.id == rUpd.id then rUpd else b) := by
  unfold txBody at h
  split at h
  · split at h
    · simp at h
    · rename_i sAcc hls
      split at h
      · simp at h
      · rename_i rAcc hlr
        simp only [] at h
        obtain ⟨h1, h2, h3, sUpd, rUpd, h4, h5, h6⟩ :=
          txAfterLocks_ok_spec s _ sAcc rAcc amt now s1 t h
        exact ⟨h1, h2, sAcc, rAcc, sUpd, rUpd, hls, hlr, h3, h4, h5, h6⟩
  · split at h
    · simp at h
    · rename_i rAcc hlr
      split at h
      · simp at h
      · rename_i sAcc hls
        simp only [] at h
        obtain ⟨h1, h2, h3, sUpd, rUpd, h4, h5, h6⟩ :=
          txAfterLocks_ok_spec s _ sAcc rAcc amt now s1 t h
        exact ⟨h1, h2, sAcc, rAcc, sUpd, rUpd, hls, hlr, h3, h4, h5, h6⟩

theorem executeTransfer_error_state (s : DBState) (sid rid : String) (amt : Amount)
    (k fid : String) (now : Nat) (e : GoError)
    (h : (ExecuteTransfer s sid rid amt k fid now).result = .error e) :
    (ExecuteTransfer s sid rid amt k fid now).state = s := by
  unfold ExecuteTransfer at h ⊢
  split at h
  · rfl
  · split at h
    · simp at h
    · simp only [] at h ⊢
      split at h
      · simp at h
      · rfl

theorem executeTransfer_ok_spec (s : DBState) (sid rid : String) (amt : Amount)
    (k fid : String) (now : Nat) (t : Transfer)
    (h : (ExecuteTransfer s sid rid amt k fid now).result = .ok t) :
    validateTransferRequest sid rid amt = none ∧
    ((getByIdempotencyKey s k = some t ∧ (ExecuteTransfer s sid rid amt k fid now).state = s) ∨
      (getByIdempotencyKey s k = none ∧
        (ExecuteTransfer s sid rid amt k fid now).state.transfers = s.transfers ++ [t] ∧
        t.idempotencyKey = k ∧ t.status = .success ∧ t.completedAt = some now ∧
        ∃ sAcc rAcc sUpd rUpd : Account,
          lockAccountRow s sid = .ok sAcc ∧ lockAccountRow s rid = .ok rAcc ∧
          sAcc.HasSufficientFunds amt = true ∧
          sAcc.Debit amt now = .ok sUpd ∧ rAcc.Credit amt now = .ok rUpd ∧
          (ExecuteTransfer s sid rid amt k fid now).state.accounts =
            (s.accounts.map (fun b => if b.id == sUpd.id then sUpd else b)).map
              (fun b => if b.id == rUpd.id then rUpd else b))) := by
  unfold ExecuteTransfer at h ⊢
  split at h
  · simp at h
  · rename_i hv
    refine ⟨hv, ?_⟩
    split at h
    · rename_i t0 hq
      simp only [] at h
      injection h with h
      subst h
      exact Or.inl ⟨hq, rfl⟩
    · rename_i hq
      simp only [] at h ⊢
      split at h
      · rename_i st hr
        injection h with h
        subst h
        obtain ⟨h1, h2, sAcc, rAcc, sUpd, rUpd, hls, hlr, h3, h4, h5, h6⟩ :=
          txBody_ok_spec s sid rid amt k fid now st.1 st.2 (by rw [hr])
        exact Or.inr ⟨hq, h2, by rw [h1]; rfl, by rw [h1]; rfl, by rw [h1]; rfl,
          sAcc, rAcc, sUpd, rUpd, hls, hlr, h3, h4, h5, h6⟩
      · simp at h

/-! ### Idempotency-key lookup lemmas -/

theorem find?_cons_pos {α : Type} (p : α → Bool) (a : α) (l : List α) (h : p a = true) :
    (a :: l).find? p = some a := by
  simp [List.find?_cons, h]

theorem find?_cons_neg {α : Type} (p : α → Bool) (a : α) (l : List α) (h : p a = false) :
    (a :: l).find? p = l.find? p := by
  simp [List.find?_cons, h]

theorem filter_cons_pos {α : Type} (p : α → Bool) (a : α) (l : List α) (h : p a = true) :
    (a :: l).filter p = a :: l.filter p := by
  simp [List.filter_cons, h]

theorem filter_cons_neg {α : Type} (p : α → Bool) (a : α) (l : List α) (h : p a = false) :
    (a :: l).filter p = l.filter p := by
  simp [List.filter_cons, h]

theorem find?_key_append_some {l : List Transfer} {k : String}
    (h : l.find? (fun u => u.idempotencyKey == k) = none) {t : Transfer}
    (ht : t.idempotencyKey = k) :
    (l ++ [t]).find? (fun u => u.idempotencyKey == k) = some t := by
  induction l with
  | nil =>
    simp only [List.nil_append]
    exact find?_cons_pos _ t [] (by simp [ht])
  | cons x xs ih =>
    cases px : (x.idempotencyKey == k) with
    | true =>
      rw [find?_cons_pos _ x xs px] at h
      cases h
    | false =>
      rw [find?_cons_neg _ x xs px] at h
      rw [List.cons_append, find?_cons_neg _ x (xs ++ [t]) px]
      exact ih h

theorem filter_key_nil {l : List Transfer} {k : String}
    (h : l.find? (fun u => u.idempotencyKey == k) = none) :
    l.filter (fun u => u.idempotencyKey == k) = [] := by
  rw [List.find?_eq_none] at h
  rw [List.filter_eq_nil_iff]
  exact h

theorem filter_key_of_pairwise {l : List Transfer} {k : String}
    (hp : l.Pairwise (fun a b => a.idempotencyKey ≠ b.idempotencyKey)) {t : Transfer}
    (hf : l.find? (fun u => u.idempotencyKey == k) = some t) :
    l.filter (fun u => u.idempotencyKey == k) = [t] := by
  induction l with
  | nil => cases hf
  | cons x xs ih =>
    rw [List.pairwise_cons] at hp
    obtain ⟨hx, hxs⟩ := hp
    cases px : (x.idempotencyKey == k) with
    | true =>
      rw [find?_cons_pos _ x xs px] at hf
      injection hf with hf
      subst hf
      rw [filter_cons_pos _ x xs px]
      have hxk : x.idempotencyKey = k := by simpa using px
      have hnilx : xs.filter (fun u => u.idempotencyKey == k) = [] := by
        rw [List.filter_eq_nil_iff]
        intro u hu
        have hne := hx u hu
        rw [hxk] at hne
        simp only [beq_iff_eq]
        exact fun huk => hne huk.symm
      rw [hnilx]
    | false =>
      rw [find?_cons_neg _ x xs px] at hf
      rw [filter_cons_neg _ x xs px]
      exact ih hxs hf

/-- C2: replaying `ExecuteTransfer` with the same idempotency key returns the
stored transfer verbatim — identical operation id, terminal status and
message — without touching the database state, and exactly one transfer row
carries that key (given the unique index on idempotency keys). -/
theorem c2_idempotent_replay (s : DBState) (sid rid : String) (amt : Amount)
    (k fid1 fid2 : String) (now1 now2 : Nat) (t : Transfer) (hu : UniqueKeys s)
    (h : (ExecuteTransfer s sid rid amt k fid1 now1).result = .ok t) :
    (ExecuteTransfer (ExecuteTransfer s sid rid amt k fid1 now1).state sid rid amt k fid2
        now2).result = .ok t ∧
    (ExecuteTransfer (ExecuteTransfer s sid rid amt k fid1 now1).state sid rid amt k fid2
        now2).state = (ExecuteTransfer s sid rid amt k fid1 now1).state ∧
    (ExecuteTransfer s sid rid amt k fid1 now1).state.transfers.filter
      (fun u => u.idempotencyKey == k) = [t] := by
  obtain ⟨hv, hcase⟩ := executeTransfer_ok_spec s sid rid amt k fid1 now1 t h
  rcases hcase with ⟨hq, hst⟩ | ⟨hq, htr, hkey, _, _, _⟩
  · rw [hst]
    have hE : ExecuteTransfer s sid rid amt k fid2 now2 =
        ⟨.ok t, s, [.queryIdempotency k]⟩ := by
      unfold ExecuteTransfer
      rw [hv, hq]
    rw [hE]
    exact ⟨rfl, rfl, filter_key_of_pairwise hu hq⟩
  · have hq2 : s.transfers.find? (fun u => u.idempotencyKey == k) = none := hq
    have hfind : getByIdempotencyKey (ExecuteTransfer s sid rid amt k fid1 now1).state k =
        some t := by
      unfold getByIdempotencyKey
      rw [htr]
      exact find?_key_append_some hq2 hkey
    have hE : ∀ s1 : DBState, getByIdempotencyKey s1 k = some t →
        ExecuteTransfer s1 sid rid amt k fid2 now2 = ⟨.ok t, s1, [.queryIdempotency k]⟩ := by
      intro s1 hf1
      unfold ExecuteTransfer
      rw [hv, hf1]
    rw [hE _ hfind]
    refine ⟨rfl, rfl, ?_⟩
    rw [htr, List.filter_append, filter_key_nil hq2]
    rw [List.nil_append, filter_cons_pos _ t [] (by simp [hkey])]
    rfl

/-- C2 witness: a successful `10.00` transfer under key `k1` and its replay,
on the concrete two-account state. -/
theorem c2_idempotent_replay_witness :
    UniqueKeys stBase ∧
    (ExecuteTransfer stBase "aaaa" "bbbb" ⟨"10.00", "RUB"⟩ "k1" "tid1" 7).result =
      .ok ⟨"tid1", "aaaa", "bbbb", ⟨"10.00", "RUB"⟩, "k1", .success,
        "Transfer completed successfully", 7, some 7⟩ ∧
    ((ExecuteTransfer (ExecuteTransfer stBase "aaaa" "bbbb" ⟨"10.00", "RUB"⟩ "k1" "tid1"
          7).state "aaaa" "bbbb" ⟨"10.00", "RUB"⟩ "k1" "tid2" 9).result =
      .ok ⟨"tid1", "aaaa", "bbbb", ⟨"10.00", "RUB"⟩, "k1", .success,
        "Transfer completed successfully", 7, some 7⟩ ∧
    (ExecuteTransfer (ExecuteTransfer stBase "aaaa" "bbbb" ⟨"10.00", "RUB"⟩ "k1" "tid1"
          7).state "aaaa" "bbbb" ⟨"10.00", "RUB"⟩ "k1" "tid2" 9).state =
      (ExecuteTransfer stBase "aaaa" "bbbb" ⟨"10.00", "RUB"⟩ "k1" "tid1" 7).state ∧
    (ExecuteTransfer stBase "aaaa" "bbbb" ⟨"10.00", "RUB"⟩ "k1" "tid1"
        7).state.transfers.filter (fun u => u.idempotencyKey == "k1") =
      [⟨"tid1", "aaaa", "bbbb", ⟨"10.00", "RUB"⟩, "k1", .success,
        "Transfer completed successfully", 7, some 7⟩]) :=
  ⟨List.Pairwise.nil, rfl,
    c2_idempotent_replay stBase "aaaa" "bbbb" ⟨"10.00", "RUB"⟩ "k1" "tid1" "tid2" 7 9 _
      List.Pairwise.nil rfl⟩

/-- C10 (implicit): every transfer returned by a non-error `ExecuteTransfer`
call has status `SUCCESS` and a set completion time, and every transfer row
in the state committed by such a call stays that way: the paths that mark a
transfer `FAILED` all return an error from the transaction closure, so their
inserts are rolled back and never observable. -/
theorem c10_only_success_observable (s : DBState) (sid rid : String) (amt : Amount)
    (k fid : String) (now : Nat) (t : Transfer)
    (hall : AllSuccessTransfers s = true)
    (h : (ExecuteTransfer s sid rid amt k fid now).result = .ok t) :
    AllSuccessTransfers (ExecuteTransfer s sid rid amt k fid now).state = true ∧
    t.status = .success ∧ t.completedAt.isSome = true := by
  obtain ⟨hv, hcase⟩ := executeTransfer_ok_spec s sid rid amt k fid now t h
  rcases hcase with ⟨hq, hst⟩ | ⟨hq, htr, hkey, hstat, hcomp, _⟩
  · have hmem : t ∈ s.transfers := by
      have hq2 : s.transfers.find? (fun u => u.idempotencyKey == k) = some t := hq
      exact List.mem_of_find?_eq_some hq2
    have hall2 := hall
    unfold AllSuccessTransfers at hall2
    rw [List.all_eq_true] at hall2
    have ht := hall2 t hmem
    rw [Bool.and_eq_true] at ht
    rw [hst]
    exact ⟨hall, by simpa using ht.1, ht.2⟩
  · refine ⟨?_, hstat, by rw [hcomp]; rfl⟩
    unfold AllSuccessTransfers at hall ⊢
    rw [htr, List.all_append, hall]
    simp [hstat, hcomp]

/-- C10 witness: the theorem applied to the concrete two-account state and
its successful `10.00` transfer. -/
theorem c10_only_success_observable_witness :
    AllSuccessTransfers stBase = true ∧
    (ExecuteTransfer stBase "aaaa" "bbbb" ⟨"10.00", "RUB"⟩ "k1" "tid1" 7).result =
      .ok ⟨"tid1", "aaaa", "bbbb", ⟨"10.00", "RUB"⟩, "k1", .success,
        "Transfer completed successfully", 7, some 7⟩ ∧
    (AllSuccessTransfers (ExecuteTransfer stBase "aaaa" "bbbb" ⟨"10.00", "RUB"⟩ "k1" "tid1"
        7).state = true ∧
      (⟨"tid1", "aaaa", "bbbb", ⟨"10.00", "RUB"⟩, "k1", .success,
        "Transfer completed successfully", 7, some 7⟩ : Transfer).status = .success ∧
      (⟨"tid1", "aaaa", "bbbb", ⟨"10.00", "RUB"⟩, "k1", .success,
        "Transfer completed successfully", 7, some 7⟩ : Transfer).completedAt.isSome = true) :=
  ⟨rfl, rfl, c10_only_success_observable stBase "aaaa" "bbbb" ⟨"10.00", "RUB"⟩ "k1" "tid1" 7
    _ rfl rfl⟩

/-- One `ExecuteTransfer` call preserves non-negativity of all balances. -/
theorem executeTransfer_nonneg_step (s : DBState) (sid rid : String) (amt : Amount)
    (k fid : String) (now : Nat) (h : NonNegBalances s = true) :
    NonNegBalances (ExecuteTransfer s sid rid amt k fid now).state = true := by
  cases hr : (ExecuteTransfer s sid rid amt k fid now).result with
  | error e => rw [executeTransfer_error_state s sid rid amt k fid now e hr]; exact h
  | ok t =>
    obtain ⟨hv, hcase⟩ := executeTransfer_ok_spec s sid rid amt k fid now t hr
    rcases hcase with ⟨hq, hst⟩ | ⟨hq, htr, hkey, hstat, hcomp,
      sAcc, rAcc, sUpd, rUpd, hls, hlr, hsf, hdeb, hcred, hacc⟩
    · rw [hst]; exact h
    · unfold NonNegBalances at h ⊢
      rw [hacc]
      rw [List.all_eq_true] at h ⊢
      intro b hb
      rw [List.mem_map] at hb
      obtain ⟨b1, hb1, rfl⟩ := hb
      rw [List.mem_map] at hb1
      obtain ⟨b0, hb0, rfl⟩ := hb1
      by_cases h2 : ((if (b0.id == sUpd.id) = true then sUpd else b0).id == rUpd.id) = true
      · rw [if_pos h2]
        have hrmem : rAcc ∈ s.accounts := lockAccountRow_ok_mem s rid rAcc hlr
        exact Credit_ok_nonneg rAcc amt now rUpd (h rAcc hrmem) hcred
      · rw [if_neg h2]
        by_cases h3 : (b0.id == sUpd.id) = true
        · rw [if_pos h3]
          exact Debit_ok_nonneg sAcc amt now sUpd hsf hdeb
        · rw [if_neg h3]
          exact h b0 hb0

/-- C4: starting from any state whose account balances are all non-negative
decimals, no sequence of `ExecuteTransfer` calls can drive any persisted
balance negative: the funds check guards the only debit path, the float
subtraction of compared-in-the-same-floats values cannot go below zero, and
every failing path rolls back. -/
theorem c4_balances_never_negative (s : DBState) (reqs : List TransferRequest)
    (h : NonNegBalances s = true) : NonNegBalances (runTransfers s reqs) = true := by
  induction reqs generalizing s with
  | nil => exact h
  | cons r rs ih =>
    show NonNegBalances (runTransfers
      (ExecuteTransfer s r.senderId r.recipientId r.amount r.idempotencyKey r.freshId
        r.now).state rs) = true
    exact ih _ (executeTransfer_nonneg_step s r.senderId r.recipientId r.amount
      r.idempotencyKey r.freshId r.now h)

/-- C4 witness: two transfers on the concrete state, one succeeding and one
failing on funds, leave every balance non-negative. -/
theorem c4_balances_never_negative_witness :
    NonNegBalances stBase = true ∧
    NonNegBalances (runTransfers stBase
      [⟨"aaaa", "bbbb", ⟨"10.00", "RUB"⟩, "k1", "tid1", 7⟩,
        ⟨"bbbb", "aaaa", ⟨"1000.00", "RUB"⟩, "k2", "tid2", 8⟩]) = true :=
  ⟨rfl, c4_balances_never_negative stBase
    [⟨"aaaa", "bbbb", ⟨"10.00", "RUB"⟩, "k1", "tid1", 7⟩,
      ⟨"bbbb", "aaaa", ⟨"1000.00", "RUB"⟩, "k2", "tid2", 8⟩] rfl⟩

/-! ### Lock-ordering lemmas -/

theorem charListLt_total (a : List Char) : ∀ b : List Char, charListLt a b = false →
    a ≠ b → charListLt b a = true := by
  induction a with
  | nil =>
    intro b h1 h2
    cases b with
    | nil => exact absurd rfl h2
    | cons y ys => simp [charListLt] at h1
  | cons x xs ih =>
    intro b h1 h2
    cases b with
    | nil => rfl
    | cons y ys =>
      unfold charListLt at h1 ⊢
      by_cases hxy : x.toNat < y.toNat
      · rw [if_pos hxy] at h1
        cases h1
      · rw [if_neg hxy] at h1
        by_cases hyx : y.toNat < x.toNat
        · rw [if_pos hyx]
        · rw [if_neg hyx] at h1
          rw [if_neg hyx, if_neg hxy]
          have hx : x = y := by
            have hn : x.toNat = y.toNat :=
              Nat.le_antisymm (Nat.not_lt.mp hyx) (Nat.not_lt.mp hxy)
            rw [← Char.ofNat_toNat x, ← Char.ofNat_toNat y, hn]
          exact ih ys h1 (fun he => h2 (by rw [hx, he]))

theorem goStringLt_total (a b : String) (h1 : goStringLt a b = false) (h2 : a ≠ b) :
    goStringLt b a = true := by
  refine charListLt_total a.data b.data h1 (fun hd => h2 ?_)
  cases a with
  | mk la =>
    cases b with
    | mk lb =>
      simp only [String.data] at hd
      rw [hd]

theorem txAfterLocks_no_locks (s : DBState) (t0 : Transfer) (sAcc rAcc : Account)
    (amt : Amount) (now : Nat) :
    lockTrace (txAfterLocks s t0 sAcc rAcc amt now).2 = [] := by
  unfold txAfterLocks
  dsimp only
  repeat' split
  all_goals rfl

theorem txBody_locks (s : DBState) (sid rid : String) (amt : Amount) (k fid : String)
    (now : Nat) :
    lockTrace (txBody s sid rid amt k fid now).2 =
      [if goStringLt sid rid then sid else rid] ∨
    lockTrace (txBody s sid rid amt k fid now).2 =
      [if goStringLt sid rid then sid else rid, if goStringLt sid rid then rid else sid] := by
  unfold txBody
  dsimp only
  split
  · split
    · left; rfl
    · split
      · right; rfl
      · rename_i x1 a1 h1 x2 a2 h2
        right
        show lockTrace (.lockRow sid :: .lockRow rid ::
          (txAfterLocks s (NewTransfer fid sid rid amt k now) a1 a2 amt now).2) = [sid, rid]
        unfold lockTrace
        rw [List.filterMap_cons, List.filterMap_cons]
        have hfx := txAfterLocks_no_locks s (NewTransfer fid sid rid amt k now) a1 a2 amt now
        unfold lockTrace at hfx
        rw [hfx]
  · split
    · left; rfl
    · split
      · right; rfl
      · rename_i x1 a1 h1 x2 a2 h2
        right
        show lockTrace (.lockRow rid :: .lockRow sid ::
          (txAfterLocks s (NewTransfer fid sid rid amt k now) a2 a1 amt now).2) = [rid, sid]
        unfold lockTrace
        rw [List.filterMap_cons, List.filterMap_cons]
        have hfx := txAfterLocks_no_locks s (NewTransfer fid sid rid amt k now) a2 a1 amt now
        unfold lockTrace at hfx
        rw [hfx]

/-- C5: whenever `ExecuteTransfer` acquires row locks, it locks the account
whose id is lexicographically smaller (Go string order) first: the lock
acquisitions in the I/O trace are always a prefix of `[smaller, larger]`. -/
theorem c5_deterministic_lock_order (s : DBState) (sid rid : String) (amt : Amount)
    (k fid : String) (now : Nat) (hne : sid ≠ rid) :
    (lockTrace (ExecuteTransfer s sid rid amt k fid now).trace = [] ∨
      lockTrace (ExecuteTransfer s sid rid amt k fid now).trace =
        [if goStringLt sid rid then sid else rid] ∨
      lockTrace (ExecuteTransfer s sid rid amt k fid now).trace =
        [if goStringLt sid rid then sid else rid,
          if goStringLt sid rid then rid else sid]) ∧
    goStringLt (if goStringLt sid rid then sid else rid)
      (if goStringLt sid rid then rid else sid) = true := by
  constructor
  · unfold ExecuteTransfer
    split
    · left; rfl
    · split
      · left; rfl
      · dsimp only
        split
        · rename_i st hr
          have hq : lockTrace (Effect.queryIdempotency k ::
              (txBody s sid rid amt k fid now).2) =
              lockTrace (txBody s sid rid amt k fid now).2 := by
            unfold lockTrace
            rw [List.filterMap_cons]
          rcases txBody_locks s sid rid amt k fid now with hl | hl
          · right; left
            show lockTrace (Effect.queryIdempotency k ::
              (txBody s sid rid amt k fid now).2) = _
            rw [hq, hl]
          · right; right
            show lockTrace (Effect.queryIdempotency k ::
              (txBody s sid rid amt k fid now).2) = _
            rw [hq, hl]
        · rename_i e hr
          have hq : lockTrace (Effect.queryIdempotency k ::
              (txBody s sid rid amt k fid now).2) =
              lockTrace (txBody s sid rid amt k fid now).2 := by
            unfold lockTrace
            rw [List.filterMap_cons]
          rcases txBody_locks s sid rid amt k fid now with hl | hl
          · right; left
            show lockTrace (Effect.queryIdempotency k ::
              (txBody s sid rid amt k fid now).2) = _
            rw [hq, hl]
          · right; right
            show lockTrace (Effect.queryIdempotency k ::
              (txBody s sid rid amt k fid now).2) = _
            rw [hq, hl]
  · by_cases hlt : goStringLt sid rid = true
    · rw [if_pos hlt, if_pos hlt]
      exact hlt
    · rw [if_neg hlt, if_neg hlt]
      exact goStringLt_total sid rid (by simpa using hlt) hne

/-- C5 witness: a transfer whose sender id is lexicographically larger than
the recipient id locks the recipient row first. -/
theorem c5_deterministic_lock_order_witness :
    ("bbbb" : String) ≠ "aaaa" ∧
    ((lockTrace (ExecuteTransfer stBase "bbbb" "aaaa" ⟨"10.00", "RUB"⟩ "k1" "tid1" 7).trace =
        [] ∨
      lockTrace (ExecuteTransfer stBase "bbbb" "aaaa" ⟨"10.00", "RUB"⟩ "k1" "tid1" 7).trace =
        [if goStringLt "bbbb" "aaaa" then "bbbb" else "aaaa"] ∨
      lockTrace (ExecuteTransfer stBase "bbbb" "aaaa" ⟨"10.00", "RUB"⟩ "k1" "tid1" 7).trace =
        [if goStringLt "bbbb" "aaaa" then "bbbb" else "aaaa",
          if goStringLt "bbbb" "aaaa" then "aaaa" else "bbbb"]) ∧
    goStringLt (if goStringLt "bbbb" "aaaa" then "bbbb" else "aaaa")
      (if goStringLt "bbbb" "aaaa" then "aaaa" else "bbbb") = true) :=
  ⟨by decide, c5_deterministic_lock_order stBase "bbbb" "aaaa" ⟨"10.00", "RUB"⟩ "k1" "tid1" 7
    (by decide)⟩

end Wallet

